import Mathlib

/-!
Verification of the fromscratchtoml neural-network core against its
specification.

The development shallowly embeds the two source files

  * fromscratchtoml/neural_network/losses.py
  * fromscratchtoml/neural_network/models/sequential.py

into Lean.  Numpy float matrices are modelled as lists of lists of
rationals; the real logarithm used by cross-entropy is an abstract
parameter; numpy broadcasting is modelled for the shapes the engine
actually produces (identical shapes, and a single-column target against a
multi-column prediction).  Fallible Python behaviour (ValueError from a
zero range step, UnboundLocalError from the forward pass) is embedded
with Except.
-/

/-- A numeric matrix: a rank-2 numpy ndarray with rational entries. -/
abbrev Mat : Type := List (List ℚ)

/-- A target argument to a loss function: numpy lets the caller pass either a
rank-1 label vector or a rank-2 matrix. -/
inductive Target : Type where
  | vec (v : List ℚ)
  | mat (m : Mat)
deriving DecidableEq

/-- np.expand_dims(v, axis=1): a rank-1 vector becomes a single-column
matrix. -/
def expandDimsAxis1 (v : List ℚ) : Mat :=
  v.map (fun x => [x])

/-- The promotion both loss functions perform on their target argument:
`if len(y_target.shape) == 1: y_target = np.expand_dims(y_target, axis=1)`. -/
def promoteTarget (t : Target) : Mat :=
  match t with
  | .vec v => expandDimsAxis1 v
  | .mat m => m

/-- Elementwise binary operation on two rows, with numpy-style broadcasting of
a length-one operand.  (General numpy broadcasting is wider; the loss layer
only ever meets identical row lengths or a length-one target row.) -/
def bcastRow (op : ℚ → ℚ → ℚ) (a b : List ℚ) : List ℚ :=
  if b.length = 1 then a.map (fun x => op x (b.headD 0))
  else if a.length = 1 then b.map (fun y => op (a.headD 0) y)
  else a.zipWith op b

/-- Elementwise binary operation on two matrices with the same number of
rows. -/
def bcastMat (op : ℚ → ℚ → ℚ) (A B : Mat) : Mat :=
  A.zipWith (bcastRow op) B

/-- Elementwise unary operation on a matrix (np.square, np.log, scalar
arithmetic, ...). -/
def matMap (f : ℚ → ℚ) (A : Mat) : Mat :=
  A.map (List.map f)

/-- np.mean over all elements of a matrix: sum of the entries divided by
their count. -/
def npMean (A : Mat) : ℚ :=
  A.flatten.sum / (A.flatten.length : ℚ)

/-- losses.mean_squared_error: promote a rank-1 target to a single-column
matrix; the error is np.mean(np.square(y_predicted - y_target)); the optional
derivative is y_predicted - y_target itself. -/
def mean_squared_error (y_predicted : Mat) (y_target : Target)
    (return_deriv : Bool) : ℚ × Option Mat :=
  let t := promoteTarget y_target
  if return_deriv then
    (npMean (matMap (fun x => x ^ 2) (bcastMat (fun a b => a - b) y_predicted t)),
     some (bcastMat (fun a b => a - b) y_predicted t))
  else
    (npMean (matMap (fun x => x ^ 2) (bcastMat (fun a b => a - b) y_predicted t)),
     none)

/-- np.clip(x, lo, hi) on one entry: min(max(x, lo), hi). -/
def npClip (lo hi x : ℚ) : ℚ :=
  min (max x lo) hi

/-- The clamping bound 1e-15 used by cross_entropy. -/
def ceEps : ℚ := 1 / 10 ^ 15

/-- losses.cross_entropy, parametric in the logarithm (the source calls the
transcendental np.log, which the embedding keeps abstract): promote a rank-1
target, clip the predictions to [1e-15, 1 - 1e-15], return the per-element
matrix -(t * log p + (1 - t) * log (1 - p)) and, on request, the derivative
-(t / p) + (1 - t) / (1 - p) computed over the clipped predictions. -/
def cross_entropy (log : ℚ → ℚ) (y_predicted : Mat) (y_target : Target)
    (return_deriv : Bool) : Mat × Option Mat :=
  let t := promoteTarget y_target
  let p := matMap (npClip ceEps (1 - ceEps)) y_predicted
  let crl := matMap (fun x => -x)
    (bcastMat (fun a b => a + b)
      (bcastMat (fun a b => a * b) t (matMap log p))
      (bcastMat (fun a b => a * b) (matMap (fun x => 1 - x) t)
        (matMap log (matMap (fun x => 1 - x) p))))
  if return_deriv then
    (crl,
     some (bcastMat (fun a b => a + b)
       (matMap (fun x => -x) (bcastMat (fun a b => a / b) t p))
       (bcastMat (fun a b => a / b) (matMap (fun x => 1 - x) t)
         (matMap (fun x => 1 - x) p))))
  else
    (crl, none)

/-- Two matrices have the same shape when their row-length profiles agree. -/
def sameShape (A B : Mat) : Prop :=
  A.map List.length = B.map List.length

instance (A B : Mat) : Decidable (sameShape A B) := by
  unfold sameShape
  infer_instance

/-- A layer as the forward pass consumes it: forward returns the output and
the output derivative (the engine always calls forward with
return_deriv=True). -/
structure FLayer : Type where
  forward : Mat → Mat × Mat

/-- The Sequential model: an ordered list of layers.  (Named SequentialModel
because Mathlib already declares Sequential.) -/
structure SequentialModel : Type where
  layers : List FLayer

/-- Sequential.forwardpass without return_deriv: thread X through every
layer's forward in insertion order and return the final running value Z. -/
def forwardpass (m : SequentialModel) (X : Mat) : Mat :=
  m.layers.foldl (fun Z l => (l.forward Z).1) X

/-- Sequential.forwardpass with return_deriv=True.  Z_deriv is assigned only
inside the per-layer loop, so with no layers Python raises
UnboundLocalError; the embedding returns Except.error in that case. -/
def forwardpass_deriv (m : SequentialModel) (X : Mat) : Except String (Mat × Mat) :=
  let r := m.layers.foldl
    (fun (acc : Mat × Option Mat) l =>
      let zd := l.forward acc.1
      (zd.1, some zd.2)) (X, none)
  match r.2 with
  | some d => .ok (r.1, d)
  | none =>
      .error "UnboundLocalError: local variable Z_deriv referenced before assignment"

/-- The largest entry of a row (helper for np.argmax). -/
def listMax : List ℚ → ℚ
  | [] => 0
  | [x] => x
  | x :: y :: r => max x (listMax (y :: r))

/-- np.argmax over one row: the index of the first occurrence of the largest
entry.  (numpy raises on an empty row; the embedding returns 0 there, a case
no theorem relies on.) -/
def np_argmax : List ℚ → Nat
  | [] => 0
  | [_] => 0
  | x :: y :: r => if x < listMax (y :: r) then np_argmax (y :: r) + 1 else 0

/-- The two result forms of Sequential.predict. -/
inductive Predictions : Type where
  | classes (idxs : List Nat)
  | probs (Z : Mat)
deriving DecidableEq

/-- Sequential.predict: forward pass, then np.argmax along axis 1 unless prob
is set, in which case the raw output is returned. -/
def predict (m : SequentialModel) (X : Mat) (prob : Bool) : Predictions :=
  let predictions := forwardpass m X
  if prob = false then .classes (predictions.map np_argmax)
  else .probs predictions

/-- The label argument of Sequential.accuracy: a rank-1 label vector or a
rank-2 (e.g. one-hot) matrix. -/
inductive Labels : Type where
  | vec (v : List ℚ)
  | mat (m : Mat)
deriving DecidableEq

/-- The local y of Sequential.accuracy after the conversion
`if len(y.shape) > 1: y = np.argmax(y, axis=1)`. -/
def accuracyYIdx (y : Labels) : List ℚ :=
  match y with
  | .mat rows => rows.map (fun r => (np_argmax r : ℚ))
  | .vec v => v

/-- The local y_pred of Sequential.accuracy: the class indices produced by
self.predict(X). -/
def accuracyYPred (mo : SequentialModel) (X : Mat) : List ℚ :=
  match predict mo X false with
  | .classes c => c.map (fun i => (i : ℚ))
  | .probs _ => []

/-- Sequential.accuracy: diff_arr = y - y_pred,
errors = np.count_nonzero(diff_arr) / 2, and the result is
100 - errors / (total_samples * 0.01). -/
def accuracy (mo : SequentialModel) (X : Mat) (y : Labels) : ℚ :=
  let yIdx := accuracyYIdx y
  let y_pred := accuracyYPred mo X
  let diff_arr := yIdx.zipWith (fun a b => a - b) y_pred
  let total_samples : ℚ := (yIdx.length : ℚ)
  let errors : ℚ := ((diff_arr.countP (fun d => decide (d ≠ 0)) : ℚ)) / 2
  100 - errors / (total_samples * (1 / 100))

/-- The attributes the losses module defines at top level; getattr on the
module resolves among exactly these names. -/
inductive LossesModuleAttr : Type where
  | np
  | logging
  | logger
  | mean_squared_error
  | cross_entropy
deriving DecidableEq

/-- The name table of the losses module. -/
def lossesModuleAttrs : List (String × LossesModuleAttr) :=
  [("np", .np), ("logging", .logging), ("logger", .logger),
   ("mean_squared_error", .mean_squared_error), ("cross_entropy", .cross_entropy)]

/-- getattr(losses, name): the attribute when the module defines it,
otherwise an AttributeError naming the identifier. -/
def getattrLosses (name : String) : Except String LossesModuleAttr :=
  match lossesModuleAttrs.lookup name with
  | some v => .ok v
  | none =>
      .error ("AttributeError: module fromscratchtoml.neural_network.losses has no attribute " ++ name)

/-- Sequential.compile: store the optimizer and bind self.loss to
getattr(losses, loss). -/
def SequentialModel.compile {ω : Type} (optimizer : ω) (loss : String) :
    Except String (ω × LossesModuleAttr) :=
  (getattrLosses loss).map (fun v => (optimizer, v))

/-- A backward-pass layer: back_propogate maps the downstream gradient to
this layer's upstream gradient.  The gradient type stays abstract. -/
structure BLayer (γ : Type) : Type where
  back_propogate : γ → γ

/-- One observable call of the backward loop: back_propogate on the layer at
a given position with a given gradient, or optimize on that layer with a
given optimizer. -/
inductive BEvent (γ : Type) (ω : Type) : Type where
  | bp (layer : Nat) (grad : γ)
  | opt (layer : Nat) (optimizer : ω)
deriving DecidableEq

/-- The body of the backward loop, instrumented with the calls it makes. -/
def bpuStep {γ ω : Type} (optimizer : ω) (acc : γ × List (BEvent γ ω))
    (il : Nat × BLayer γ) : γ × List (BEvent γ ω) :=
  (il.2.back_propogate acc.1,
   acc.2 ++ [BEvent.bp il.1 acc.1, BEvent.opt il.1 optimizer])

/-- Sequential.back_propogate_and_update:
for layer in reversed(self.layers): dEdO = layer.back_propogate(dEdO);
layer.optimize(optimizer).  Layers are identified by their insertion
position, and the trace of calls is returned next to the final gradient. -/
def back_propogate_and_update {γ ω : Type} (layers : List (BLayer γ))
    (dEdO : γ) (optimizer : ω) : γ × List (BEvent γ ω) :=
  (layers.enum.reverse).foldl (bpuStep optimizer) (dEdO, [])

/-- The index list python's range(0, stop, step) produces for a positive
step. -/
def pyRange0 (stop step : Nat) : List Nat :=
  List.range' 0 ((stop + step - 1) / step) step

/-- The X[c : c + bs] slices Sequential.fit builds in one epoch. -/
def fitBatchSlices {ρ : Type} (X : List ρ) (bs : Nat) : List (List ρ) :=
  (pyRange0 X.length bs).map (fun c => (X.drop c).take bs)

/-- The per-epoch batch partition performed by Sequential.fit: the batch size
defaults to the dataset size, then X is sliced at range(0, len(X), bs).  A
zero step (empty dataset with batch_size=None, or batch_size=0) raises
ValueError in Python. -/
def fitBatches {ρ : Type} (X : List ρ) (batch_size : Option Nat) :
    Except String (List (List ρ)) :=
  let bs := batch_size.getD X.length
  if bs = 0 then .error "ValueError: range() arg 3 must not be zero"
  else .ok (fitBatchSlices X bs)

/-- The formula claim C4 asserts for accuracy, for comparison with the code:
count the samples whose predicted class differs from the true class and
report 100 - (mismatches / total_samples) * 100. -/
def accuracyMismatchFormula (mo : SequentialModel) (X : Mat) (y : Labels) : ℚ :=
  let yIdx := accuracyYIdx y
  let y_pred := accuracyYPred mo X
  let mismatches : ℚ :=
    ((yIdx.zipWith (fun a b => decide (a ≠ b)) y_pred).count true : ℚ)
  100 - (mismatches / (yIdx.length : ℚ)) * 100

theorem bcastRow_eq_zipWith (op : ℚ → ℚ → ℚ) {a b : List ℚ}
    (h : a.length = b.length) : bcastRow op a b = a.zipWith op b := by
  unfold bcastRow
  by_cases hb : b.length = 1
  · have ha : a.length = 1 := by omega
    obtain ⟨x, rfl⟩ := List.length_eq_one.mp ha
    obtain ⟨y, rfl⟩ := List.length_eq_one.mp hb
    simp
  · have ha : ¬a.length = 1 := by omega
    simp [hb, ha]

theorem sameShape_cons {r s : List ℚ} {A B : Mat}
    (h : sameShape (r :: A) (s :: B)) :
    r.length = s.length ∧ sameShape A B := by
  unfold sameShape at h ⊢
  simpa using h

theorem bcastMat_eq_zipWith (op : ℚ → ℚ → ℚ) :
    ∀ {A B : Mat}, sameShape A B →
      bcastMat op A B = A.zipWith (fun ra rb => ra.zipWith op rb) B := by
  intro A
  induction A with
  | nil => intro B _; simp [bcastMat]
  | cons r A ih =>
    intro B h
    cases B with
    | nil => simp [sameShape] at h
    | cons s B =>
      obtain ⟨hr, hA⟩ := sameShape_cons h
      simp only [bcastMat, List.zipWith_cons_cons]
      rw [bcastRow_eq_zipWith op hr]
      have := ih hA
      simp only [bcastMat] at this
      rw [this]

theorem matMap_zipWith (f : ℚ → ℚ) (op : ℚ → ℚ → ℚ) (A B : Mat) :
    matMap f (A.zipWith (fun ra rb => ra.zipWith op rb) B) =
      A.zipWith (fun ra rb => ra.zipWith (fun a b => f (op a b)) rb) B := by
  unfold matMap
  rw [List.map_zipWith]
  simp [List.map_zipWith]

theorem npMean_sq_nonneg (M : Mat) : 0 ≤ npMean (matMap (fun x => x ^ 2) M) := by
  unfold npMean
  apply div_nonneg
  · apply List.sum_nonneg
    intro x hx
    simp only [matMap, List.mem_flatten, List.mem_map] at hx
    obtain ⟨r, ⟨r0, _, rfl⟩, hxr⟩ := hx
    obtain ⟨y, _, rfl⟩ := List.mem_map.mp hxr
    positivity
  · positivity

theorem bcastRow_sub_self (r : List ℚ) :
    bcastRow (fun a b => a - b) r r = r.map (fun _ => 0) := by
  by_cases h : r.length = 1
  · obtain ⟨x, rfl⟩ := List.length_eq_one.mp h
    simp [bcastRow]
  · rw [bcastRow_eq_zipWith _ rfl, List.zipWith_same]
    simp

theorem mse_self_eq_zero (p : Mat) :
    (mean_squared_error p (.mat p) false).1 = 0 := by
  simp only [mean_squared_error, promoteTarget, if_neg Bool.false_ne_true]
  have hb : bcastMat (fun a b => a - b) p p = p.map (fun r => r.map (fun _ => 0)) := by
    unfold bcastMat
    rw [List.zipWith_same]
    simp [bcastRow_sub_self]
  rw [hb]
  unfold npMean
  rw [List.sum_eq_zero]
  · exact zero_div _
  · intro x hx
    simp only [matMap, List.mem_flatten, List.mem_map] at hx
    obtain ⟨r, ⟨r0, ⟨r1, _, rfl⟩, rfl⟩, hxr⟩ := hx
    obtain ⟨y, hy, rfl⟩ := List.mem_map.mp hxr
    obtain ⟨z, _, rfl⟩ := List.mem_map.mp hy
    norm_num

/-- Claim C5: for conformant matrices p and t of identical shape,
mean_squared_error(p, t) is the arithmetic mean of the elementwise squares of
p - t, it is non-negative, mean_squared_error(p, p) is zero, and the requested
derivative is p - t elementwise (no division by the element count). -/
theorem claim_C5 (p t : Mat) (h : sameShape p t) :
    (mean_squared_error p (.mat t) false).1 =
      (p.zipWith (fun pr tr => pr.zipWith (fun a b => (a - b) ^ 2) tr) t).flatten.sum /
        (((p.zipWith (fun pr tr => pr.zipWith (fun a b => (a - b) ^ 2) tr) t).flatten.length : ℚ))
    ∧ 0 ≤ (mean_squared_error p (.mat t) false).1
    ∧ (mean_squared_error p (.mat p) false).1 = 0
    ∧ (mean_squared_error p (.mat t) true).2 =
        some (p.zipWith (fun pr tr => pr.zipWith (fun a b => a - b) tr) t) := by
  refine ⟨?_, ?_, mse_self_eq_zero p, ?_⟩
  · simp only [mean_squared_error, promoteTarget, if_neg Bool.false_ne_true]
    rw [bcastMat_eq_zipWith _ h, matMap_zipWith]
    rfl
  · simp only [mean_squared_error, promoteTarget, if_neg Bool.false_ne_true]
    exact npMean_sq_nonneg _
  · simp only [mean_squared_error, promoteTarget, if_pos rfl]
    rw [bcastMat_eq_zipWith _ h]
    simp

theorem claim_C5_witness :
    sameShape [[(1 : ℚ), 2]] [[0, 2]] ∧
    ((mean_squared_error [[(1 : ℚ), 2]] (.mat [[0, 2]]) false).1 =
      (List.zipWith (fun pr tr => pr.zipWith (fun a b => (a - b) ^ 2) tr)
          [[(1 : ℚ), 2]] [[0, 2]]).flatten.sum /
        (((List.zipWith (fun pr tr => pr.zipWith (fun a b => (a - b) ^ 2) tr)
          [[(1 : ℚ), 2]] [[0, 2]]).flatten.length : ℚ))
    ∧ 0 ≤ (mean_squared_error [[(1 : ℚ), 2]] (.mat [[0, 2]]) false).1
    ∧ (mean_squared_error [[(1 : ℚ), 2]] (.mat [[(1 : ℚ), 2]]) false).1 = 0
    ∧ (mean_squared_error [[(1 : ℚ), 2]] (.mat [[0, 2]]) true).2 =
        some (List.zipWith (fun pr tr => pr.zipWith (fun a b => a - b) tr)
          [[(1 : ℚ), 2]] [[0, 2]])) :=
  ⟨by decide, claim_C5 [[1, 2]] [[0, 2]] (by decide)⟩

theorem ce_row_error (log c : ℚ → ℚ) :
    ∀ (pr tr : List ℚ),
      List.map (fun x => -x)
        (List.zipWith (fun a b => a + b)
          (List.zipWith (fun a b => a * b) tr (List.map log (List.map c pr)))
          (List.zipWith (fun a b => a * b) (List.map (fun x => 1 - x) tr)
            (List.map log (List.map (fun x => 1 - x) (List.map c pr))))) =
      List.zipWith (fun a b => -(b * log (c a) + (1 - b) * log (1 - c a))) pr tr := by
  intro pr
  induction pr with
  | nil => intro tr; simp
  | cons a pr ih =>
    intro tr
    cases tr with
    | nil => simp
    | cons b tr =>
      simp only [List.map_cons, List.zipWith_cons_cons, ih]

theorem ce_row_deriv (c : ℚ → ℚ) :
    ∀ (pr tr : List ℚ),
      List.zipWith (fun a b => a + b)
        (List.map (fun x => -x) (List.zipWith (fun a b => a / b) tr (List.map c pr)))
        (List.zipWith (fun a b => a / b) (List.map (fun x => 1 - x) tr)
          (List.map (fun x => 1 - x) (List.map c pr))) =
      List.zipWith (fun a b => -(b / c a) + (1 - b) / (1 - c a)) pr tr := by
  intro pr
  induction pr with
  | nil => intro tr; simp
  | cons a pr ih =>
    intro tr
    cases tr with
    | nil => simp
    | cons b tr =>
      simp only [List.map_cons, List.zipWith_cons_cons, ih]

theorem ce_row_error_bcast (log c : ℚ → ℚ) (pr tr : List ℚ)
    (h : pr.length = tr.length) :
    List.map (fun x => -x)
      (bcastRow (fun a b => a + b)
        (bcastRow (fun a b => a * b) tr (List.map log (List.map c pr)))
        (bcastRow (fun a b => a * b) (List.map (fun x => 1 - x) tr)
          (List.map log (List.map (fun x => 1 - x) (List.map c pr))))) =
    List.zipWith (fun a b => -(b * log (c a) + (1 - b) * log (1 - c a))) pr tr := by
  have h1 : tr.length = (List.map log (List.map c pr)).length := by simp [h]
  have h2 : (List.map (fun x : ℚ => 1 - x) tr).length =
      (List.map log (List.map (fun x : ℚ => 1 - x) (List.map c pr))).length := by simp [h]
  rw [bcastRow_eq_zipWith _ h1, bcastRow_eq_zipWith _ h2]
  have h3 : (List.zipWith (fun a b => a * b) tr (List.map log (List.map c pr))).length =
      (List.zipWith (fun a b => a * b) (List.map (fun x : ℚ => 1 - x) tr)
        (List.map log (List.map (fun x : ℚ => 1 - x) (List.map c pr)))).length := by
    simp [h]
  rw [bcastRow_eq_zipWith _ h3]
  exact ce_row_error log c pr tr

theorem ce_row_deriv_bcast (c : ℚ → ℚ) (pr tr : List ℚ)
    (h : pr.length = tr.length) :
    bcastRow (fun a b => a + b)
      (List.map (fun x => -x) (bcastRow (fun a b => a / b) tr (List.map c pr)))
      (bcastRow (fun a b => a / b) (List.map (fun x => 1 - x) tr)
        (List.map (fun x => 1 - x) (List.map c pr))) =
    List.zipWith (fun a b => -(b / c a) + (1 - b) / (1 - c a)) pr tr := by
  have h1 : tr.length = (List.map c pr).length := by simp [h]
  have h2 : (List.map (fun x : ℚ => 1 - x) tr).length =
      (List.map (fun x : ℚ => 1 - x) (List.map c pr)).length := by simp [h]
  rw [bcastRow_eq_zipWith _ h1, bcastRow_eq_zipWith _ h2]
  have h3 : (List.map (fun x : ℚ => -x)
      (List.zipWith (fun a b => a / b) tr (List.map c pr))).length =
      (List.zipWith (fun a b => a / b) (List.map (fun x : ℚ => 1 - x) tr)
        (List.map (fun x : ℚ => 1 - x) (List.map c pr))).length := by
    simp [h]
  rw [bcastRow_eq_zipWith _ h3]
  exact ce_row_deriv c pr tr

theorem ce_error_matrix (log c : ℚ → ℚ) :
    ∀ (p t : Mat), sameShape p t →
      matMap (fun x => -x)
        (bcastMat (fun a b => a + b)
          (bcastMat (fun a b => a * b) t (matMap log (matMap c p)))
          (bcastMat (fun a b => a * b) (matMap (fun x => 1 - x) t)
            (matMap log (matMap (fun x => 1 - x) (matMap c p))))) =
      p.zipWith (fun pr tr =>
        pr.zipWith (fun a b => -(b * log (c a) + (1 - b) * log (1 - c a))) tr) t := by
  intro p
  induction p with
  | nil =>
    intro t _
    simp [matMap, bcastMat]
  | cons pr p ih =>
    intro t h
    cases t with
    | nil => simp [sameShape] at h
    | cons tr t =>
      obtain ⟨hr, hA⟩ := sameShape_cons h
      simp only [matMap, List.map_cons, bcastMat, List.zipWith_cons_cons]
      have hh := ih t hA
      simp only [matMap, bcastMat] at hh
      rw [hh, ce_row_error_bcast log c pr tr hr]

theorem ce_deriv_matrix (c : ℚ → ℚ) :
    ∀ (p t : Mat), sameShape p t →
      bcastMat (fun a b => a + b)
        (matMap (fun x => -x) (bcastMat (fun a b => a / b) t (matMap c p)))
        (bcastMat (fun a b => a / b) (matMap (fun x => 1 - x) t)
          (matMap (fun x => 1 - x) (matMap c p))) =
      p.zipWith (fun pr tr =>
        pr.zipWith (fun a b => -(b / c a) + (1 - b) / (1 - c a)) tr) t := by
  intro p
  induction p with
  | nil =>
    intro t _
    simp [matMap, bcastMat]
  | cons pr p ih =>
    intro t h
    cases t with
    | nil => simp [sameShape] at h
    | cons tr t =>
      obtain ⟨hr, hA⟩ := sameShape_cons h
      simp only [matMap, List.map_cons, bcastMat, List.zipWith_cons_cons]
      have hh := ih t hA
      simp only [matMap, bcastMat] at hh
      rw [hh, ce_row_deriv_bcast c pr tr hr]

theorem npClip_bounds (x : ℚ) :
    ceEps ≤ npClip ceEps (1 - ceEps) x ∧ npClip ceEps (1 - ceEps) x ≤ 1 - ceEps ∧
    npClip ceEps (1 - ceEps) x ≠ 0 ∧ npClip ceEps (1 - ceEps) x ≠ 1 ∧
    (1 : ℚ) - npClip ceEps (1 - ceEps) x ≠ 0 := by
  have he : (0 : ℚ) < ceEps := by norm_num [ceEps]
  have he2 : ceEps ≤ 1 - ceEps := by norm_num [ceEps]
  have hlo : ceEps ≤ npClip ceEps (1 - ceEps) x := le_min (le_max_right _ _) he2
  have hhi : npClip ceEps (1 - ceEps) x ≤ 1 - ceEps := min_le_right _ _
  have hlt : npClip ceEps (1 - ceEps) x < 1 :=
    lt_of_le_of_lt hhi (by norm_num [ceEps])
  exact ⟨hlo, hhi, ne_of_gt (lt_of_lt_of_le he hlo), ne_of_lt hlt,
    sub_ne_zero.mpr (ne_of_gt hlt)⟩

/-- Claim C6: cross_entropy clamps each prediction entry to within 1e-15 of
neither 0 nor 1 and returns the per-element matrix
-(t log p + (1 - t) log (1 - p)) rather than a scalar mean; the clamped
entries never make the logarithm's argument 0 (so the value is defined even
for predictions containing exact 0 or 1), and the requested derivative is
-(t / p) + (1 - t) / (1 - p) over the clamped predictions. -/
theorem claim_C6 (log : ℚ → ℚ) (p t : Mat) (h : sameShape p t) :
    (cross_entropy log p (.mat t) false).1 =
      p.zipWith (fun pr tr => pr.zipWith (fun a b =>
        -(b * log (npClip ceEps (1 - ceEps) a) +
          (1 - b) * log (1 - npClip ceEps (1 - ceEps) a))) tr) t
    ∧ (cross_entropy log p (.mat t) true).2 =
        some (p.zipWith (fun pr tr => pr.zipWith (fun a b =>
          -(b / npClip ceEps (1 - ceEps) a) +
            (1 - b) / (1 - npClip ceEps (1 - ceEps) a)) tr) t)
    ∧ (∀ x : ℚ,
        ceEps ≤ npClip ceEps (1 - ceEps) x ∧ npClip ceEps (1 - ceEps) x ≤ 1 - ceEps ∧
        npClip ceEps (1 - ceEps) x ≠ 0 ∧ npClip ceEps (1 - ceEps) x ≠ 1 ∧
        (1 : ℚ) - npClip ceEps (1 - ceEps) x ≠ 0) := by
  refine ⟨?_, ?_, npClip_bounds⟩
  · simp only [cross_entropy, promoteTarget, if_neg Bool.false_ne_true]
    exact ce_error_matrix log (npClip ceEps (1 - ceEps)) p t h
  · simp only [cross_entropy, promoteTarget]
    rw [ce_deriv_matrix (npClip ceEps (1 - ceEps)) p t h]
    simp

theorem claim_C6_witness :
    sameShape [[(0 : ℚ)]] [[(1 : ℚ)]] ∧
    ((cross_entropy id [[(0 : ℚ)]] (.mat [[(1 : ℚ)]]) false).1 =
      List.zipWith (fun pr tr => List.zipWith (fun a b =>
        -(b * id (npClip ceEps (1 - ceEps) a) +
          (1 - b) * id (1 - npClip ceEps (1 - ceEps) a))) pr tr)
        [[(0 : ℚ)]] [[(1 : ℚ)]]
    ∧ (cross_entropy id [[(0 : ℚ)]] (.mat [[(1 : ℚ)]]) true).2 =
        some (List.zipWith (fun pr tr => List.zipWith (fun a b =>
          -(b / npClip ceEps (1 - ceEps) a) +
            (1 - b) / (1 - npClip ceEps (1 - ceEps) a)) pr tr)
          [[(0 : ℚ)]] [[(1 : ℚ)]])
    ∧ (∀ x : ℚ,
        ceEps ≤ npClip ceEps (1 - ceEps) x ∧ npClip ceEps (1 - ceEps) x ≤ 1 - ceEps ∧
        npClip ceEps (1 - ceEps) x ≠ 0 ∧ npClip ceEps (1 - ceEps) x ≠ 1 ∧
        (1 : ℚ) - npClip ceEps (1 - ceEps) x ≠ 0)) :=
  ⟨by decide, claim_C6 id [[0]] [[1]] (by decide)⟩

/-- Claim C7: a rank-1 target vector passed to either loss function yields
exactly the same error and derivative as its single-column rank-2 reshape. -/
theorem claim_C7 (log : ℚ → ℚ) (p : Mat) (v : List ℚ) (rd : Bool) :
    mean_squared_error p (.vec v) rd =
      mean_squared_error p (.mat (expandDimsAxis1 v)) rd
    ∧ cross_entropy log p (.vec v) rd =
        cross_entropy log p (.mat (expandDimsAxis1 v)) rd :=
  ⟨rfl, rfl⟩

/-- Claim C8: for a model whose layer sequence is empty, forwardpass(X)
without the derivative returns X unchanged. -/
theorem claim_C8 (m : SequentialModel) (X : Mat) (h : m.layers = []) :
    forwardpass m X = X := by
  unfold forwardpass
  rw [h]
  rfl

theorem claim_C8_witness :
    (SequentialModel.mk []).layers = [] ∧
    forwardpass (SequentialModel.mk []) [[1, 2], [3, 4]] = [[1, 2], [3, 4]] :=
  ⟨rfl, claim_C8 (SequentialModel.mk []) [[1, 2], [3, 4]] rfl⟩

/-- Claim C10: for a model whose layer sequence is empty,
forwardpass(X, return_deriv=True) fails with an unbound-variable error for
every X (Z_deriv is assigned only inside the per-layer loop), even though
forwardpass(X) without the derivative returns X. -/
theorem claim_C10 (m : SequentialModel) (X : Mat) (h : m.layers = []) :
    forwardpass_deriv m X =
      .error "UnboundLocalError: local variable Z_deriv referenced before assignment"
    ∧ forwardpass m X = X := by
  unfold forwardpass_deriv forwardpass
  rw [h]
  exact ⟨rfl, rfl⟩

theorem claim_C10_witness :
    (SequentialModel.mk []).layers = [] ∧
    (forwardpass_deriv (SequentialModel.mk []) [[5]] =
      .error "UnboundLocalError: local variable Z_deriv referenced before assignment"
    ∧ forwardpass (SequentialModel.mk []) [[5]] = [[5]]) :=
  ⟨rfl, claim_C10 (SequentialModel.mk []) [[5]] rfl⟩

theorem le_listMax : ∀ (l : List ℚ), ∀ x ∈ l, x ≤ listMax l := by
  intro l
  induction l with
  | nil => intro x hx; simp at hx
  | cons a t ih =>
    intro x hx
    cases t with
    | nil =>
      simp at hx
      simp [listMax, hx]
    | cons b r =>
      rcases List.mem_cons.mp hx with h | h
      · subst h
        simp [listMax]
      · have := ih x h
        simp only [listMax]
        exact le_max_of_le_right this

theorem np_argmax_lt_length : ∀ (l : List ℚ), l ≠ [] → np_argmax l < l.length := by
  intro l
  induction l with
  | nil => intro h; exact absurd rfl h
  | cons a t ih =>
    intro _
    cases t with
    | nil => simp [np_argmax]
    | cons b r =>
      by_cases hlt : a < listMax (b :: r)
      · have := ih (by simp)
        simp only [List.length_cons] at this
        simp only [np_argmax, if_pos hlt, List.length_cons]
        omega
      · simp [np_argmax, if_neg hlt]

theorem get_np_argmax :
    ∀ (l : List ℚ) (hne : l ≠ []) (hm : np_argmax l < l.length),
      l.get ⟨np_argmax l, hm⟩ = listMax l := by
  intro l
  induction l with
  | nil => intro h; exact absurd rfl h
  | cons a t ih =>
    intro _ hm
    cases t with
    | nil => simp [np_argmax, listMax]
    | cons b r =>
      by_cases hlt : a < listMax (b :: r)
      · have hm' : np_argmax (b :: r) < (b :: r).length :=
          np_argmax_lt_length (b :: r) (by simp)
        have hrec := ih (by simp) hm'
        simp only [np_argmax, if_pos hlt] at hm ⊢
        simp only [List.get_cons_succ]
        rw [hrec]
        simp only [listMax]
        exact (max_eq_right (le_of_lt hlt)).symm
      · simp only [np_argmax, if_neg hlt] at hm ⊢
        simp only [List.get_cons_zero, listMax]
        exact (max_eq_left (not_lt.mp hlt)).symm

/-- Claim C9: predict with as_probability=True returns the raw forward-pass
output unchanged, and with as_probability=False returns per sample the index
of the maximum value of that sample's output row (first occurrence, as
np.argmax). -/
theorem claim_C9 (m : SequentialModel) (X : Mat) :
    predict m X true = .probs (forwardpass m X)
    ∧ predict m X false = .classes ((forwardpass m X).map np_argmax)
    ∧ (∀ r ∈ forwardpass m X, r ≠ [] →
        ∀ (hm : np_argmax r < r.length),
          ∀ (j : Nat) (hj : j < r.length), r.get ⟨j, hj⟩ ≤ r.get ⟨np_argmax r, hm⟩) := by
  refine ⟨rfl, rfl, ?_⟩
  intro r _ hne hm j hj
  rw [get_np_argmax r hne hm]
  exact le_listMax r _ (List.get_mem r j hj)

theorem claim_C9_witness :
    (predict (SequentialModel.mk []) [[1, 3, 2]] true =
      .probs (forwardpass (SequentialModel.mk []) [[1, 3, 2]])
    ∧ predict (SequentialModel.mk []) [[1, 3, 2]] false =
        .classes ((forwardpass (SequentialModel.mk []) [[1, 3, 2]]).map np_argmax)
    ∧ (∀ r ∈ forwardpass (SequentialModel.mk []) [[1, 3, 2]], r ≠ [] →
        ∀ (hm : np_argmax r < r.length),
          ∀ (j : Nat) (hj : j < r.length), r.get ⟨j, hj⟩ ≤ r.get ⟨np_argmax r, hm⟩)) :=
  claim_C9 (SequentialModel.mk []) [[1, 3, 2]]

/-- Counterexample to claim C3: the identifier "np" lies outside the set of
known Loss names, yet compile succeeds and binds the numpy module object
instead of failing with a configuration error. -/
theorem claim_C3_counterexample :
    SequentialModel.compile () "np" = Except.ok ((), LossesModuleAttr.np) ∧
    (SequentialModel.compile () "np").isOk = true :=
  ⟨rfl, rfl⟩

/-- Claim C3 as amended: compile resolves the loss name by attribute lookup
on the whole losses module, not against the two known Loss names.  The two
loss names resolve to their functions; any other module attribute (np,
logging, logger) is bound without error; only a name the module does not
define fails, with an AttributeError naming the identifier. -/
theorem claim_C3_amended {ω : Type} (o : ω) :
    SequentialModel.compile o "mean_squared_error" =
      .ok (o, LossesModuleAttr.mean_squared_error)
    ∧ SequentialModel.compile o "cross_entropy" =
        .ok (o, LossesModuleAttr.cross_entropy)
    ∧ (∀ (s : String) (v : LossesModuleAttr),
        lossesModuleAttrs.lookup s = some v →
          SequentialModel.compile o s = .ok (o, v))
    ∧ (∀ (s : String), lossesModuleAttrs.lookup s = none →
        SequentialModel.compile o s =
          .error ("AttributeError: module fromscratchtoml.neural_network.losses has no attribute " ++ s)) := by
  refine ⟨rfl, rfl, ?_, ?_⟩
  · intro s v h
    simp [SequentialModel.compile, getattrLosses, h, Except.map]
  · intro s h
    simp [SequentialModel.compile, getattrLosses, h, Except.map]

theorem claim_C3_amended_witness :
    (lossesModuleAttrs.lookup "np" = some LossesModuleAttr.np ∧
      SequentialModel.compile () "np" = .ok ((), LossesModuleAttr.np)) ∧
    (lossesModuleAttrs.lookup "adam" = none ∧
      SequentialModel.compile () "adam" =
        .error ("AttributeError: module fromscratchtoml.neural_network.losses has no attribute " ++ "adam")) :=
  ⟨⟨rfl, (claim_C3_amended ()).2.2.1 "np" LossesModuleAttr.np rfl⟩,
   ⟨rfl, (claim_C3_amended ()).2.2.2 "adam" rfl⟩⟩

/-- Counterexample to claim C4: with no layers, X = [[1,0],[0,1]] and
y = [0,0], exactly one of the two samples is predicted wrongly, so the
claimed formula gives 50, but accuracy halves the nonzero count of the
difference vector and returns 75. -/
theorem claim_C4_counterexample :
    accuracy (SequentialModel.mk []) [[1, 0], [0, 1]] (.vec [0, 0]) = 75
    ∧ accuracyMismatchFormula (SequentialModel.mk []) [[1, 0], [0, 1]] (.vec [0, 0]) = 50
    ∧ accuracy (SequentialModel.mk []) [[1, 0], [0, 1]] (.vec [0, 0]) ≠
        accuracyMismatchFormula (SequentialModel.mk []) [[1, 0], [0, 1]] (.vec [0, 0]) := by
  refine ⟨?_, ?_, ?_⟩ <;>
    norm_num [accuracy, accuracyMismatchFormula, accuracyYIdx, accuracyYPred,
      predict, forwardpass, np_argmax, listMax, List.zipWith, List.countP,
      List.countP.go, List.count]

/-- Claim C4 as amended: accuracy converts y to class-index form (argmax
along axis 1 if y is multi-column, else used as-is) and computes class
predictions via predict, but the reported value is
100 - 50 * count_nonzero(y - y_pred) / total_samples: the nonzero entries of
the difference vector are counted and then halved, which is the claimed
mismatch percentage only when each mismatching sample contributes two
nonzero entries. -/
theorem claim_C4_amended (mo : SequentialModel) (X : Mat) (y : Labels)
    (h : 0 < (accuracyYIdx y).length) :
    accuracy mo X y =
      100 - 50 * (((accuracyYIdx y).zipWith (fun a b => a - b)
          (accuracyYPred mo X)).countP (fun d => decide (d ≠ 0)) : ℚ) /
        ((accuracyYIdx y).length : ℚ)
    ∧ accuracyYPred mo X = ((forwardpass mo X).map np_argmax).map (fun i => (i : ℚ))
    ∧ (∀ rows : Mat, accuracyYIdx (.mat rows) = rows.map (fun r => (np_argmax r : ℚ)))
    ∧ (∀ v : List ℚ, accuracyYIdx (.vec v) = v) := by
  refine ⟨?_, rfl, fun _ => rfl, fun _ => rfl⟩
  unfold accuracy
  have hq : ((accuracyYIdx y).length : ℚ) ≠ 0 := by
    exact_mod_cast Nat.pos_iff_ne_zero.mp h
  field_simp
  ring

theorem claim_C4_amended_witness :
    0 < (accuracyYIdx (.vec [0, 0])).length ∧
    (accuracy (SequentialModel.mk []) [[1, 0], [0, 1]] (.vec [0, 0]) =
      100 - 50 * (((accuracyYIdx (.vec [0, 0])).zipWith (fun a b => a - b)
          (accuracyYPred (SequentialModel.mk []) [[1, 0], [0, 1]])).countP
            (fun d => decide (d ≠ 0)) : ℚ) /
        ((accuracyYIdx (.vec [0, 0])).length : ℚ)
    ∧ accuracyYPred (SequentialModel.mk []) [[1, 0], [0, 1]] =
        ((forwardpass (SequentialModel.mk []) [[1, 0], [0, 1]]).map np_argmax).map
          (fun i => (i : ℚ))
    ∧ (∀ rows : Mat, accuracyYIdx (.mat rows) = rows.map (fun r => (np_argmax r : ℚ)))
    ∧ (∀ v : List ℚ, accuracyYIdx (.vec v) = v)) :=
  ⟨by decide,
   claim_C4_amended (SequentialModel.mk []) [[1, 0], [0, 1]] (.vec [0, 0]) (by decide)⟩


theorem bpu_foldl_trace {γ ω : Type} (o : ω) :
    ∀ (L : List (Nat × BLayer γ)) (g : γ) (tr : List (BEvent γ ω)),
      L.foldl (bpuStep o) (g, tr) =
        ((L.foldl (bpuStep o) (g, [])).1, tr ++ (L.foldl (bpuStep o) (g, [])).2) := by
  intro L
  induction L with
  | nil => intro g tr; simp
  | cons il L ih =>
    intro g tr
    simp only [List.foldl_cons, bpuStep, List.nil_append]
    rw [ih (il.2.back_propogate g) (tr ++ [BEvent.bp il.1 g, BEvent.opt il.1 o]),
        ih (il.2.back_propogate g) [BEvent.bp il.1 g, BEvent.opt il.1 o]]
    simp

/-- Claim C1: back_propogate_and_update visits the layers in reverse
insertion order (positions n-1 down to 0); each visited layer first receives
back_propogate with the current gradient signal and immediately afterwards
optimize with the bound optimizer; the gradient fed to position i is the
composition of the back_propogate of all later layers applied to the
incoming gradient, and the final gradient composes every layer. -/
theorem claim_C1 {γ ω : Type} (layers : List (BLayer γ)) (dEdO : γ)
    (optimizer : ω) :
    back_propogate_and_update layers dEdO optimizer =
      (layers.foldr (fun l a => l.back_propogate a) dEdO,
       ((List.range layers.length).reverse).flatMap (fun i =>
         [BEvent.bp i
            ((layers.drop (i + 1)).foldr (fun l a => l.back_propogate a) dEdO),
          BEvent.opt i optimizer])) := by
  induction layers using List.reverseRecOn generalizing dEdO with
  | nil => rfl
  | append_singleton ys y ih =>
    unfold back_propogate_and_update
    rw [List.enum_append]
    simp only [List.enumFrom, List.reverse_append, List.reverse_cons,
      List.reverse_nil, List.nil_append, List.cons_append, List.foldl_cons,
      bpuStep, List.nil_append]
    rw [bpu_foldl_trace optimizer ys.enum.reverse]
    have hys := ih (y.back_propogate dEdO)
    unfold back_propogate_and_update at hys
    rw [hys]
    dsimp only
    have hlen : (ys ++ [y]).length = ys.length + 1 := by simp
    rw [hlen, List.range_succ, List.reverse_append, List.reverse_singleton,
      List.singleton_append, List.flatMap_cons]
    have hdropall : (ys ++ [y]).drop (ys.length + 1) = [] :=
      List.drop_eq_nil_of_le (by simp)
    rw [hdropall, List.foldr_append]
    have htail :
        (List.range ys.length).reverse.flatMap (fun i =>
          [BEvent.bp i ((ys.drop (i + 1)).foldr
              (fun l a => l.back_propogate a) (y.back_propogate dEdO)),
           BEvent.opt i optimizer]) =
        (List.range ys.length).reverse.flatMap (fun i =>
          [BEvent.bp i (((ys ++ [y]).drop (i + 1)).foldr
              (fun l a => l.back_propogate a) dEdO),
           BEvent.opt i optimizer]) := by
      apply List.flatMap_congr
      intro i hi
      have hi' : i < ys.length := List.mem_range.mp (List.mem_reverse.mp hi)
      rw [List.drop_append_of_le_length (by omega), List.foldr_append]
      rfl
    rw [htail]
    rfl

theorem fitBatchSlices_nil {ρ : Type} (k : Nat) (hk : 1 ≤ k) :
    fitBatchSlices ([] : List ρ) k = [] := by
  unfold fitBatchSlices pyRange0
  have h0 : (0 + k - 1) / k = 0 := Nat.div_eq_of_lt (by omega)
  rw [List.length_nil, h0]
  rfl

theorem fitBatchSlices_cons {ρ : Type} (k : Nat) (hk : 1 ≤ k) (X : List ρ)
    (hX : X ≠ []) :
    fitBatchSlices X k = X.take k :: fitBatchSlices (X.drop k) k := by
  unfold fitBatchSlices pyRange0
  have hm : 1 ≤ X.length := List.length_pos.mpr hX
  have hlen : (X.length + k - 1) / k = (X.length - 1) / k + 1 := by
    have h1 : X.length + k - 1 = (X.length - 1) + k := by omega
    rw [h1, Nat.add_div_right _ (by omega)]
  have hlen2 : ((X.drop k).length + k - 1) / k = (X.length - 1) / k := by
    rw [List.length_drop]
    rcases le_or_lt k X.length with h | h
    · have h2 : X.length - k + k - 1 = X.length - 1 := by omega
      rw [h2]
    · have h0 : X.length - k = 0 := by omega
      rw [h0]
      have e1 : (0 + k - 1) / k = 0 := Nat.div_eq_of_lt (by omega)
      have e2 : (X.length - 1) / k = 0 := Nat.div_eq_of_lt (by omega)
      rw [e1, e2]
  rw [hlen, hlen2, List.range'_succ]
  simp only [List.map_cons, List.drop_zero, Nat.zero_add]
  congr 1
  have hr : List.range' k ((X.length - 1) / k) k =
      (List.range' 0 ((X.length - 1) / k) k).map (fun c => k + c) := by
    rw [List.map_add_range', Nat.add_zero]
  rw [hr, List.map_map]
  apply List.map_congr_left
  intro c _
  simp only [Function.comp_apply]
  rw [List.drop_drop]

theorem fitBatchSlices_flatten {ρ : Type} (k : Nat) (hk : 1 ≤ k) (X : List ρ) :
    (fitBatchSlices X k).flatten = X := by
  have H : ∀ (n : Nat) (Y : List ρ), Y.length ≤ n →
      (fitBatchSlices Y k).flatten = Y := by
    intro n
    induction n with
    | zero =>
      intro Y hY
      have h0 : Y = [] := List.eq_nil_of_length_eq_zero (by omega)
      subst h0
      rw [fitBatchSlices_nil k hk]
      rfl
    | succ n ih =>
      intro Y hY
      by_cases h0 : Y = []
      · subst h0
        rw [fitBatchSlices_nil k hk]
        rfl
      · rw [fitBatchSlices_cons k hk Y h0, List.flatten_cons]
        have hdrop : (Y.drop k).length ≤ n := by
          rw [List.length_drop]
          have h1 : 1 ≤ Y.length := List.length_pos.mpr h0
          omega
        rw [ih (Y.drop k) hdrop]
        exact List.take_append_drop k Y
  exact H X.length X le_rfl

theorem fitBatchSlices_dropLast {ρ : Type} (k : Nat) (hk : 1 ≤ k) (X : List ρ) :
    ∀ b ∈ (fitBatchSlices X k).dropLast, b.length = k := by
  have H : ∀ (n : Nat) (Y : List ρ), Y.length ≤ n →
      ∀ b ∈ (fitBatchSlices Y k).dropLast, b.length = k := by
    intro n
    induction n with
    | zero =>
      intro Y hY b hb
      have h0 : Y = [] := List.eq_nil_of_length_eq_zero (by omega)
      subst h0
      rw [fitBatchSlices_nil k hk] at hb
      simp at hb
    | succ n ih =>
      intro Y hY b hb
      by_cases h0 : Y = []
      · subst h0
        rw [fitBatchSlices_nil k hk] at hb
        simp at hb
      · rw [fitBatchSlices_cons k hk Y h0] at hb
        by_cases hrest : Y.drop k = []
        · rw [hrest, fitBatchSlices_nil k hk] at hb
          simp at hb
        · have hkY : k < Y.length := by
            have h1 := List.length_pos.mpr hrest
            rw [List.length_drop] at h1
            omega
          have hcons := fitBatchSlices_cons k hk (Y.drop k) hrest
          rw [hcons] at hb
          simp only [List.dropLast, List.mem_cons] at hb
          rcases hb with hb | hb
          · subst hb
            rw [List.length_take]
            omega
          · have hdrop : (Y.drop k).length ≤ n := by
              rw [List.length_drop]
              omega
            refine ih (Y.drop k) hdrop b ?_
            rw [hcons]
            simpa [List.dropLast] using hb
  exact H X.length X le_rfl

theorem fitBatchSlices_getLast {ρ : Type} (k : Nat) (hk : 1 ≤ k) (X : List ρ)
    (hmod : X.length % k ≠ 0) :
    ((fitBatchSlices X k).getLast?).map List.length = some (X.length % k) := by
  have H : ∀ (n : Nat) (Y : List ρ), Y.length ≤ n → Y.length % k ≠ 0 →
      ((fitBatchSlices Y k).getLast?).map List.length = some (Y.length % k) := by
    intro n
    induction n with
    | zero =>
      intro Y hY hm
      have h0 : Y = [] := List.eq_nil_of_length_eq_zero (by omega)
      subst h0
      simp at hm
    | succ n ih =>
      intro Y hY hm
      by_cases h0 : Y = []
      · subst h0
        simp at hm
      · rw [fitBatchSlices_cons k hk Y h0]
        by_cases hrest : Y.drop k = []
        · have hYk : Y.length ≤ k := by
            have h1 : (Y.drop k).length = 0 := by rw [hrest]; rfl
            rw [List.length_drop] at h1
            omega
          have h1 : 1 ≤ Y.length := List.length_pos.mpr h0
          have hlt : Y.length < k := by
            rcases lt_or_eq_of_le hYk with h | h
            · exact h
            · exfalso
              apply hm
              rw [h, Nat.mod_self]
          rw [hrest, fitBatchSlices_nil k hk, List.getLast?_singleton]
          simp only [Option.map_some', List.length_take]
          rw [Nat.mod_eq_of_lt hlt, min_eq_right hYk]
        · have hkY : k < Y.length := by
            have h1 := List.length_pos.mpr hrest
            rw [List.length_drop] at h1
            omega
          have hmod2 : (Y.drop k).length % k = Y.length % k := by
            rw [List.length_drop]
            have h2 : Y.length = (Y.length - k) + k := by omega
            conv_rhs => rw [h2]
            rw [Nat.add_mod_right]
          have hcons := fitBatchSlices_cons k hk (Y.drop k) hrest
          rw [hcons, List.getLast?_cons_cons, ← hcons]
          have hdrop : (Y.drop k).length ≤ n := by
            rw [List.length_drop]
            omega
          rw [ih (Y.drop k) hdrop (by rw [hmod2]; exact hm), hmod2]
  exact H X.length X le_rfl hmod

theorem fitBatchSlices_length {ρ : Type} (X : List ρ) (k : Nat) :
    (fitBatchSlices X k).length = (X.length + k - 1) / k := by
  unfold fitBatchSlices pyRange0
  rw [List.length_map, List.length_range']

theorem fitBatches_none {ρ : Type} (X : List ρ) (hX : X ≠ []) :
    fitBatches X none = .ok [X] := by
  unfold fitBatches
  have hm : 1 ≤ X.length := List.length_pos.mpr hX
  simp only [Option.getD_none]
  rw [if_neg (by omega)]
  congr 1
  rw [fitBatchSlices_cons X.length (by omega) X hX, List.take_length,
    List.drop_length, fitBatchSlices_nil _ (by omega)]

/-- Counterexample to claim C2: on the empty dataset, fit with
batch_size=None defaults the batch size to 0 and the batch loop's
range(0, 0, 0) raises ValueError before any batch is processed, so no epoch
processes one batch containing the entire dataset. -/
theorem claim_C2_counterexample :
    fitBatches ([] : List (List ℚ)) none =
      .error "ValueError: range() arg 3 must not be zero"
    ∧ fitBatches ([] : List (List ℚ)) none ≠ .ok [([] : List (List ℚ))] := by
  refine ⟨rfl, ?_⟩
  intro h
  simp [fitBatches] at h

/-- Claim C2 as amended: for a non-empty dataset X of m rows, fit with
batch_size=None processes exactly one batch per epoch containing the entire
dataset (for m = 0 the range step is 0 and Python raises ValueError); fit
with a positive batch_size=k processes ceil(m/k) contiguous non-overlapping
batches per epoch in original row order whose concatenation is exactly X
(no row repeated or skipped), every batch but the last holding k rows and
the last holding m mod k rows when that remainder is non-zero. -/
theorem claim_C2_amended :
    (∀ (X : List (List ℚ)), X ≠ [] → fitBatches X none = .ok [X])
    ∧ (∀ (X : List (List ℚ)) (k : Nat), 1 ≤ k →
        fitBatches X (some k) = .ok (fitBatchSlices X k)
        ∧ (fitBatchSlices X k).length = (X.length + k - 1) / k
        ∧ (fitBatchSlices X k).flatten = X
        ∧ (∀ b ∈ (fitBatchSlices X k).dropLast, b.length = k)
        ∧ (X.length % k ≠ 0 →
            ((fitBatchSlices X k).getLast?).map List.length =
              some (X.length % k))) := by
  constructor
  · exact fun X hX => fitBatches_none X hX
  · intro X k hk
    refine ⟨?_, fitBatchSlices_length X k, fitBatchSlices_flatten k hk X,
      fitBatchSlices_dropLast k hk X, fitBatchSlices_getLast k hk X⟩
    unfold fitBatches
    simp only [Option.getD_some]
    rw [if_neg (by omega)]

theorem claim_C2_amended_witness :
    (([[(1 : ℚ)], [2], [3]] : List (List ℚ)) ≠ []
      ∧ fitBatches ([[(1 : ℚ)], [2], [3]] : List (List ℚ)) none =
          .ok [[[(1 : ℚ)], [2], [3]]])
    ∧ ((1 : Nat) ≤ 2
      ∧ fitBatches ([[(1 : ℚ)], [2], [3]] : List (List ℚ)) (some 2) =
          .ok (fitBatchSlices ([[(1 : ℚ)], [2], [3]] : List (List ℚ)) 2)
      ∧ (fitBatchSlices ([[(1 : ℚ)], [2], [3]] : List (List ℚ)) 2).flatten =
          [[(1 : ℚ)], [2], [3]]
      ∧ ((fitBatchSlices ([[(1 : ℚ)], [2], [3]] : List (List ℚ)) 2).getLast?).map
          List.length = some 1) :=
  ⟨⟨by decide, claim_C2_amended.1 [[(1 : ℚ)], [2], [3]] (by decide)⟩,
   by decide,
   (claim_C2_amended.2 [[(1 : ℚ)], [2], [3]] 2 (by decide)).1,
   (claim_C2_amended.2 [[(1 : ℚ)], [2], [3]] 2 (by decide)).2.2.1,
   (claim_C2_amended.2 [[(1 : ℚ)], [2], [3]] 2 (by decide)).2.2.2.2 (by decide)⟩
